import Mathlib

/-!
# Verification of the spell-catalog / grimoire logic

Shallow embedding of the spell selection, filtering, grouping, selection,
grimoire aggregation, slot adjustment, spell addition and character deletion
logic of the repository (files `src/unnamed/part_000` and
`src/app/(tabs)/characters.tsx`), together with theorems settling the
specification claims about them.

Conventions used throughout the embedding:
* JavaScript strings are Lean `String`s; `toLowerCase` is `jsToLower`,
  `trim` is `jsTrim`, `includes` is `jsIncludes` below.
* An optional / possibly-`undefined` JavaScript value is an `Option`.
* A JavaScript object used as a string-keyed map is an association list
  `List (String × β)`; reading is `jsGet` (first matching key), writing is
  `jsSet` (replace in place when present).
* JavaScript numbers that only ever hold integers are `Int` (spell levels,
  slot counts, deltas).
-/

/-- `leadsWith pat l` is true iff `pat` is an initial segment of `l`. -/
def leadsWith : List Char → List Char → Bool
  | [], _ => true
  | _ :: _, [] => false
  | a :: as, b :: bs => a == b && leadsWith as bs

/-- `hasSub pat l` is true iff `pat` occurs contiguously inside `l`. -/
def hasSub (pat : List Char) : List Char → Bool
  | [] => leadsWith pat []
  | c :: t => leadsWith pat (c :: t) || hasSub pat t

/-- Embedding of JavaScript `hay.includes(pat)` on strings. -/
def jsIncludes (hay pat : String) : Bool :=
  hasSub pat.toList hay.toList

/-- Embedding of JavaScript `toLowerCase`, computed character by character
(extensionally the mapping of `String.toLower`, but structurally recursive
so that concrete instances evaluate). -/
def jsToLower (s : String) : String :=
  String.mk (s.data.map Char.toLower)

/-- Embedding of JavaScript `trim`: strip leading and trailing
whitespace. -/
def jsTrim (s : String) : String :=
  String.mk
    (((s.data.dropWhile Char.isWhitespace).reverse.dropWhile
      Char.isWhitespace).reverse)

/-- JavaScript truthiness of an optional string: `undefined`/`null` and the
empty string are falsy. -/
def jsTruthyStr : Option String → Bool
  | none => false
  | some s => s ≠ ""

/-- Reading `m[k]` from an object modelled as an association list:
first binding wins (object keys are unique in practice). -/
def jsGet {α β : Type} [BEq α] (m : List (α × β)) (k : α) : Option β :=
  (m.find? (fun p => p.1 == k)).map (fun p => p.2)

/-- Writing `m[k] = v` when the key is already present: every binding of `k`
is replaced in place, other bindings are untouched. -/
def jsSet {α β : Type} [BEq α] (m : List (α × β)) (k : α) (v : β) :
    List (α × β) :=
  m.map (fun p => if p.1 == k then (k, v) else p)

/-- A spell of the static reference catalog (`@/types/spell`): only the
fields the verified logic reads are modelled.  `classes` / `subclasses`
are `Option` because the code guards them with `&& Array.isArray(...)`. -/
structure Spell where
  id : String
  name : String
  level : Int
  school : String
  classes : Option (List String)
  subclasses : Option (List String)
  deriving Repr, DecidableEq

/-- A subclass descriptor of a `DnDClass`: either a bare name or an object
carrying a `name` field (which may itself be absent/empty). -/
inductive SubclassEntry where
  | strE (s : String)
  | objE (name : Option String)
  deriving Repr, DecidableEq

/-- A class of the static reference data (`@/types/dndClass`). -/
structure DnDClass where
  name : Option String
  subclasses : Option (List SubclassEntry)
  deriving Repr, DecidableEq

/-- One entry of a character's `spells_known` list: either a bare spell name
or an object carrying `name` and `level`. -/
inductive KnownSpell where
  | str (s : String)
  | obj (name : String) (level : Int)
  deriving Repr, DecidableEq

/-- The name under which a known-spell entry is resolved:
`typeof spellData === 'string' ? spellData : spellData.name`. -/
def KnownSpell.refName : KnownSpell → String
  | .str s => s
  | .obj n _ => n

/-- A character record as read from the remote store.  `spell_slots` maps a
level key (a string) to an array of numbers `[current, max, ...]`. -/
structure Character where
  id : String
  name : String
  class_name : String
  level : Int
  hp_current : Int
  hp_max : Int
  spell_slots : List (String × List Int)
  spells_known : List KnownSpell
  deriving Repr, DecidableEq

/-- Does one entry of `spell.classes` match the class name?  Embeds
`className && className.trim().toLowerCase() === characterClass.name.toLowerCase()`. -/
def classNameMatches (className nm : String) : Bool :=
  className ≠ "" && jsToLower (jsTrim className) == jsToLower nm

/-- Does one subclass descriptor of the class match one entry of
`spell.subclasses`?  Embeds the ternary at part_000:144-146. -/
def subclassMatches (classSubclass : SubclassEntry) (sub : String) : Bool :=
  match classSubclass with
  | .strE s => jsToLower s == jsToLower sub
  | .objE n => n.elim false (fun nm => nm ≠ "" && jsToLower nm == jsToLower sub)

/-- The per-spell predicate of the catalog loader's filter
(part_000:132-150): the spell lists the class among its eligible classes,
or one of its eligible subclasses matches one of the class's subclasses. -/
def classSpellPred (cc : DnDClass) (nm : String) (spell : Spell) : Bool :=
  let isClassSpell :=
    spell.classes.elim false (fun cls => cls.any (fun cn => classNameMatches cn nm))
  let isSubclassSpell :=
    spell.subclasses.elim false (fun subs =>
      cc.subclasses.elim false (fun csubs =>
        subs.any (fun sub => csubs.any (fun cs => subclassMatches cs sub))))
  isClassSpell || isSubclassSpell

/-- Embedding of the `classSpells` memo (part_000:81-161), restricted to its
pure part: the dataset actually loaded is passed in as `spellsData`, and the
guard `if (!characterClass || !characterClass.name) return []` is the two
`none`/falsy cases. -/
def classSpells (characterClass : Option DnDClass) (spellsData : List Spell) :
    List Spell :=
  match characterClass with
  | none => []
  | some cc =>
    match cc.name with
    | none => []
    | some nm =>
      if nm == "" then [] else spellsData.filter (classSpellPred cc nm)

/-- The boolean comparator of the sort at part_000:191-198: ascending level
first, then name.  `localeCompare` on names is modelled by the `String`
order of Lean. -/
def spellLE (a b : Spell) : Bool :=
  a.level < b.level || (a.level == b.level && a.name ≤ b.name)

/-- The per-spell predicate of the filter at part_000:176-188: free-text
match on the name and optional school filter.  Note the source compares the
spell's school *trimmed* and lowered against the lowered selection. -/
def spellSearchPred (searchText : String) (selectedSchool : Option String)
    (spell : Spell) : Bool :=
  let matchesSearch :=
    searchText == "" || jsIncludes (jsToLower spell.name) (jsToLower searchText)
  let matchesSchool :=
    if jsTruthyStr selectedSchool then
      selectedSchool.elim true (fun sel =>
        spell.school ≠ "" && jsToLower (jsTrim spell.school) == jsToLower sel)
    else true
  matchesSearch && matchesSchool

/-- Embedding of the `filteredAndSortedSpells` memo (part_000:174-199). -/
def filteredAndSortedSpells (cs : List Spell) (searchText : String)
    (selectedSchool : Option String) : List Spell :=
  (cs.filter (spellSearchPred searchText selectedSchool)).mergeSort spellLE

/-- One display entry of the selection list (part_000:37-42): a level header
or a spell row. -/
inductive SpellListItem where
  | header (level : Int) (id : String)
  | spellRow (spell : Spell) (id : String)
  deriving Repr, DecidableEq

/-- The loop body of the `listItems` memo (part_000:202-228), with the
mutable `currentLevel` threaded explicitly (initially `-1`). -/
def listItemsGo (expandedLevels : List Int) :
    List Spell → Int → List SpellListItem
  | [], _ => []
  | sp :: rest, currentLevel =>
    (if sp.level ≠ currentLevel then
      [SpellListItem.header sp.level ("header-" ++ toString sp.level)]
    else []) ++
    (if expandedLevels.contains sp.level then
      [SpellListItem.spellRow sp sp.id]
    else []) ++
    listItemsGo expandedLevels rest sp.level

/-- Embedding of the `listItems` memo (part_000:202-228). -/
def listItems (spells : List Spell) (expandedLevels : List Int) :
    List SpellListItem :=
  listItemsGo expandedLevels spells (-1)

/-- Embedding of `handleSelectAll` (part_000:252-258): compares the *size*
of the selection with the *length* of the filtered list. -/
def handleSelectAll (selectedSpells : Finset String) (filtered : List Spell) :
    Finset String :=
  if selectedSpells.card = filtered.length then ∅
  else (filtered.map (fun spell => spell.id)).toFinset

/-- Embedding of `getSpellByName` (part_000:953-955): first catalog entry
with exactly the given name, `none` for `null`. -/
def getSpellByName (allSpells : List Spell) (spellName : String) :
    Option Spell :=
  allSpells.find? (fun spell => spell.name == spellName)

/-- The first loop of `prepareCharacterSpells` (part_000:964-970): resolve
each known-spell entry by name, silently dropping unresolved names. -/
def resolveKnownSpells (allSpells : List Spell) (known : List KnownSpell) :
    List Spell :=
  known.filterMap (fun k => getSpellByName allSpells k.refName)

/-- Insert one spell into the level-keyed grouping, appending to its level's
list (creating the level's entry on first use, as the source's
`if (!spellsByLevel[spell.level]) spellsByLevel[spell.level] = []` does). -/
def addToGroup : List (Int × List Spell) → Spell → List (Int × List Spell)
  | [], sp => [(sp.level, [sp])]
  | (l, g) :: rest, sp =>
    if l = sp.level then (l, g ++ [sp]) :: rest
    else (l, g) :: addToGroup rest sp

/-- The grouping loop of `prepareCharacterSpells` (part_000:973-979),
as an association list from level to the spells of that level in
encounter order. -/
def groupSpellsByLevel (spells : List Spell) : List (Int × List Spell) :=
  spells.foldl addToGroup []

/-- Name comparator used to sort each level's list (part_000:982-984);
`localeCompare` is modelled by the `String` order of Lean. -/
def nameLE (a b : Spell) : Bool :=
  a.name ≤ b.name

/-- The numeric value of a list of decimal digits. -/
def digitsVal (ds : List Char) : Nat :=
  ds.foldl (fun n c => n * 10 + (c.toNat - '0'.toNat)) 0

/-- Embedding of JavaScript `parseInt` as used on slot keys: exact on
canonical decimal integer strings — the only keys the application itself
writes (`level.toString()`) — with `none` standing for `NaN`. -/
def parseIntJS (s : String) : Option Int :=
  match s.data with
  | [] => none
  | '-' :: ds =>
    if !ds.isEmpty && ds.all Char.isDigit then some (-(digitsVal ds : Int))
    else none
  | ds =>
    if ds.all Char.isDigit then some ((digitsVal ds : Int)) else none

/-- One entry of the slot summary (part_000:878-882).  `level` is `none`
when the stored key does not parse as an integer (`NaN` in the source). -/
structure SpellSlotInfo where
  current : Int
  max : Int
  level : Option Int
  deriving Repr, DecidableEq

/-- Comparator of the slot sort (part_000:1001, `a.level - b.level`).
Entries with `NaN` level compare as `0` here; the JavaScript sort order on
such entries is unspecified and no claim depends on it. -/
def slotLE (a b : SpellSlotInfo) : Bool :=
  a.level.getD 0 ≤ b.level.getD 0

/-- The aggregate handed to the grimoire view (part_000:884-890). -/
structure CharacterSpells where
  character : Character
  spells : List Spell
  spellsByLevel : List (Int × List Spell)
  spellSlots : List SpellSlotInfo
  characterClass : Option DnDClass
  deriving Repr, DecidableEq

/-- Embedding of `prepareCharacterSpells` (part_000:957-1010). -/
def prepareCharacterSpells (allSpells : List Spell)
    (classesData : List DnDClass) (character : Character) : CharacterSpells :=
  let characterClass :=
    classesData.find? (fun cls => cls.name == some character.class_name)
  let spells := resolveKnownSpells allSpells character.spells_known
  let spellsByLevel :=
    (groupSpellsByLevel spells).map (fun p => (p.1, p.2.mergeSort nameLE))
  let spellSlots :=
    (character.spell_slots.filterMap (fun p =>
      match p.2 with
      | c :: m :: _ => some { current := c, max := m, level := parseIntJS p.1 }
      | _ => none)).mergeSort slotLE
  { character := character, spells := spells, spellsByLevel := spellsByLevel,
    spellSlots := spellSlots, characterClass := characterClass }

/-- The field selector of `updateSpellSlot` (`type: 'current' | 'max'`). -/
inductive SlotField where
  | current
  | maxF
  deriving Repr, DecidableEq

/-- The slot arithmetic of `updateSpellSlot` (part_000:1032-1039) on one
stored array `[current, max, ...]`:
`slots[0] = Math.max(0, Math.min(slots[1], slots[0] + delta))` for the
current count, and `slots[1] = Math.max(0, slots[1] + delta)` followed by
`slots[0] = Math.min(slots[0], slots[1])` for the max.  Arrays with fewer
than two elements are returned unchanged: on those the source would compute
`NaN` values, which have no `Int` counterpart; every theorem below
restricts to well-formed `[current, max, ...]` arrays. -/
def applySlotDelta (t : SlotField) (delta : Int) : List Int → List Int
  | c :: m :: rest =>
    match t with
    | .current => (max 0 (min m (c + delta))) :: m :: rest
    | .maxF => (min c (max 0 (m + delta))) :: (max 0 (m + delta)) :: rest
  | s => s

/-- The mapping-level part of `updateSpellSlot` (part_000:1028-1041): copy
the slot mapping and rewrite the entry at key `level.toString()`, if one is
present; otherwise nothing happens (no request is issued either). -/
def updateSlotsMap (slots : List (String × List Int)) (level : Int)
    (t : SlotField) (delta : Int) : List (String × List Int) :=
  let levelKey := toString level
  match jsGet slots levelKey with
  | some arr => jsSet slots levelKey (applySlotDelta t delta arr)
  | none => slots

/-- The request body of the slot-update `PUT` (part_000:1050-1052): the
source serializes an object whose only field is `spell_slots`, and this
structure accordingly has no other field. -/
structure UpdateBody where
  spell_slots : List (String × List Int)
  deriving Repr, DecidableEq

/-- Modelled from the spec: the remote character store is not part of
`src/` (spec §1 lists it among external collaborators, §6: "update one
(partial, e.g. spell_slots or spells_known field)").  A partial update
replaces exactly the fields carried by the request body and leaves every
other field of the stored character unchanged. -/
def applyServerUpdate (ch : Character) (body : UpdateBody) : Character :=
  { ch with spell_slots := body.spell_slots }

/-- Outcome of the `fetch` issued by `updateSpellSlot`: a success response
whose JSON body is `updated`, a non-success response (`response.ok` false),
or a thrown network error. -/
inductive FetchOutcome where
  | ok (updated : Character)
  | httpError
  | netError
  deriving Repr, DecidableEq

/-- Which blocking alert `updateSpellSlot` shows, if any (part_000:1024,
1067, 1072). -/
inductive AlertKind where
  | authError
  | updateFailed
  | unexpectedError
  deriving Repr, DecidableEq

/-- The in-memory state the grimoire tab holds: the cached character list
and the character open in the detail view, if any. -/
structure LocalState where
  characters : List Character
  selectedCharacter : Option CharacterSpells
  deriving DecidableEq

/-- Result of one `updateSpellSlot` call: the new local state, the alert
shown (if any), and the request body sent to the store (if a request was
issued at all). -/
structure SlotStepResult where
  state : LocalState
  alert : Option AlertKind
  request : Option UpdateBody
  deriving DecidableEq

/-- Embedding of `updateSpellSlot` (part_000:1017-1074).  The network is
abstracted as `respond`, mapping the request body actually sent to its
outcome; `hasSession` is the result of the session check. -/
def updateSpellSlotStep (allSpells : List Spell) (classesData : List DnDClass)
    (st : LocalState) (hasSession : Bool) (level : Int) (t : SlotField)
    (delta : Int) (respond : UpdateBody → FetchOutcome) : SlotStepResult :=
  match st.selectedCharacter with
  | none => { state := st, alert := none, request := none }
  | some sel =>
    if !hasSession then
      { state := st, alert := some .authError, request := none }
    else
      match jsGet sel.character.spell_slots (toString level) with
      | none => { state := st, alert := none, request := none }
      | some arr =>
        let newSlots := jsSet sel.character.spell_slots (toString level)
          (applySlotDelta t delta arr)
        let body : UpdateBody := { spell_slots := newSlots }
        match respond body with
        | .ok updated =>
          { state :=
              { characters := st.characters.map (fun ch =>
                  if ch.id == sel.character.id then updated else ch),
                selectedCharacter :=
                  some (prepareCharacterSpells allSpells classesData updated) },
            alert := none,
            request := some body }
        | .httpError =>
          { state := st, alert := some .updateFailed, request := some body }
        | .netError =>
          { state := st, alert := some .unexpectedError, request := some body }

/-- The persistence decision of `handleAddSpellsToGrimoire`
(part_000:1948-1990): `none` when no request is issued (every selected
spell already known), `some l` when a `PUT` with `spells_known = l` is
issued. -/
def addSpellsToGrimoire (currentSpells : List KnownSpell)
    (spells : List Spell) : Option (List KnownSpell) :=
  let currentSpellNames := currentSpells.map KnownSpell.refName
  let newSpells := spells.filter (fun spell =>
    !currentSpellNames.contains spell.name)
  if newSpells.isEmpty then none
  else
    some (currentSpells ++
      newSpells.map (fun spell => KnownSpell.obj spell.name spell.level))

/-- Outcome of the part_000 character-deletion flow. -/
inductive DeleteOutcome where
  | noSession
  | deleteFailed
  | thrownReference (varName : String)
  | localSuccess (remaining : List Character)
  deriving Repr, DecidableEq

/-- Embedding of `handleDeleteCharacter` from src/unnamed/part_000
(lines 1760-1838).  After the supabase delete resolves without error, the
function evaluates `response.ok` (line 1788); no variable named `response`
is declared in this function or any enclosing scope of that file, so in
JavaScript the access throws a ReferenceError, which the surrounding
try/catch turns into the unexpected-error alert.  The throw is embedded as
the `thrownReference` outcome; `localSuccess` is the state update the
success branch (lines 1792-1816) would perform and is proved unreachable. -/
def handleDeleteCharacterP0 (hasSession : Bool) (deleteError : Bool) :
    DeleteOutcome :=
  if !hasSession then .noSession
  else if deleteError then .deleteFailed
  else .thrownReference "response"

/-- The level carried by a header entry, if any. -/
def SpellListItem.headerLevel : SpellListItem → Option Int
  | .header l _ => some l
  | _ => none

/-- The spell carried by a spell-row entry, if any. -/
def SpellListItem.rowSpell : SpellListItem → Option Spell
  | .spellRow sp _ => some sp
  | _ => none

/-- The sequence of header levels the list builder emits for a given level
sequence, the previously seen level being `cur`: a level is emitted exactly
when it differs from the previous one. -/
def levelsHeaders (cur : Int) : List Int → List Int
  | [] => []
  | l :: ls => if l ≠ cur then l :: levelsHeaders l ls else levelsHeaders l ls

/-- Whether a deletion outcome is the local success path. -/
def DeleteOutcome.isLocalSuccess : DeleteOutcome → Bool
  | .localSuccess _ => true
  | _ => false

/-- The school constraint exactly as claim C7 / spec §4.2 word it: the
spell's school equals the selected school case-insensitively, with no
trimming.  Stated from the specification's words for comparison with the
source predicate `spellSearchPred`; the two differ on schools carrying
surrounding whitespace. -/
def specSchoolEq (school sel : String) : Prop :=
  jsToLower school = jsToLower sel

/-- Membership of a spell in the group a level-keyed mapping stores at
key `l`. -/
def inGroup (m : List (Int × List Spell)) (l : Int) (sp : Spell) : Prop :=
  ∃ g, jsGet m l = some g ∧ sp ∈ g

/-! ## Concrete sample data used by witnesses and counterexamples -/

/-- A level-1 spell with blank metadata, duplicated in C3's counterexample. -/
def plainSpell (i n : String) (l : Int) : Spell :=
  { id := i, name := n, level := l, school := "", classes := none,
    subclasses := none }

/-- "Fireball", a level-3 evocation available to the class "Mago". -/
def fireballSpell : Spell :=
  { id := "fireball", name := "Fireball", level := 3, school := "Evocation",
    classes := some ["Mago"], subclasses := none }

/-- "Shield", a level-1 abjuration available to the class "Mago". -/
def shieldSpell : Spell :=
  { id := "shield", name := "Shield", level := 1, school := "Abjuration",
    classes := some ["Mago"], subclasses := none }

/-- "Light", a cantrip available to the class "Mago". -/
def lightSpell : Spell :=
  { id := "light", name := "Light", level := 0, school := "Evocation",
    classes := some ["Mago"], subclasses := none }

/-- A spell whose stored school carries a trailing blank, used to separate
the source's trimmed school comparison from the claim's untrimmed one. -/
def paddedSchoolSpell : Spell :=
  { id := "pad", name := "Padded", level := 1, school := "Evocation ",
    classes := none, subclasses := none }

/-- The class "Mago" with no subclasses. -/
def magoClass : DnDClass :=
  { name := some "Mago", subclasses := none }

/-- A character used by witnesses: knows "Fireball" and an unresolvable
name, and has one well-formed level-3 slot entry. -/
def sampleCharacter : Character :=
  { id := "c1", name := "Gandalf", class_name := "Mago", level := 10,
    hp_current := 68, hp_max := 78, spell_slots := [("3", [2, 3])],
    spells_known := [.str "Fireball", .str "Unknown Spell"] }

/-- The grimoire view state for `sampleCharacter`, as the detail view holds
it when a slot adjustment is issued. -/
def sampleSelected : CharacterSpells :=
  prepareCharacterSpells [fireballSpell] [] sampleCharacter

/-- A local state holding `sampleCharacter`, with its detail view open. -/
def sampleState : LocalState :=
  { characters := [sampleCharacter], selectedCharacter := some sampleSelected }

/-! ## Helper lemmas about the association-list object model -/

theorem jsGet_cons {α β : Type} [BEq α] (p : α × β) (m : List (α × β))
    (k : α) : jsGet (p :: m) k = if p.1 == k then some p.2 else jsGet m k := by
  cases h : p.1 == k <;> simp [jsGet, List.find?_cons, h]

theorem jsSet_cons {α β : Type} [BEq α] (p : α × β) (m : List (α × β))
    (k : α) (v : β) :
    jsSet (p :: m) k v = (if p.1 == k then (k, v) else p) :: jsSet m k v := by
  simp [jsSet]

/-- Rewriting a present key makes exactly that value readable afterwards. -/
theorem jsGet_jsSet_same {α β : Type} [BEq α] [LawfulBEq α]
    (m : List (α × β)) (k : α) (v : β) (h : (jsGet m k).isSome) :
    jsGet (jsSet m k v) k = some v := by
  induction m with
  | nil => simp [jsGet] at h
  | cons p rest ih =>
    rw [jsGet_cons] at h
    rw [jsSet_cons, jsGet_cons]
    by_cases hp : p.1 = k
    · simp [hp]
    · have hpb : (p.1 == k) = false := beq_eq_false_iff_ne.mpr hp
      simp only [hpb, Bool.false_eq_true, if_false] at h ⊢
      exact ih h

/-- Rewriting one key leaves every other key's value untouched. -/
theorem jsGet_jsSet_other {α β : Type} [BEq α] [LawfulBEq α]
    (m : List (α × β)) (k k' : α) (v : β) (hk : k' ≠ k) :
    jsGet (jsSet m k v) k' = jsGet m k' := by
  induction m with
  | nil => simp [jsGet, jsSet]
  | cons p rest ih =>
    rw [jsSet_cons, jsGet_cons, jsGet_cons]
    by_cases hp : p.1 = k
    · have hkk : (k == k') = false := beq_eq_false_iff_ne.mpr (fun h => hk h.symm)
      simp [hp, hkk, ih]
    · have hpb : (p.1 == k) = false := beq_eq_false_iff_ne.mpr hp
      have hsel : (if (p.1 == k) = true then (k, v) else p) = p := by simp [hpb]
      rw [hsel, ih]

/-! ## C1: slot adjustment clamps -/

/-- C1: on a slot mapping holding a well-formed `[current, max, ...]` array
at level `L`, adjusting the current count yields
`clamp(current + delta, 0, max)`, which lies in `[0, max]` (the stored max
being non-negative); adjusting the max yields `max(old max + delta, 0)`,
never negative, and lowers the current count to
`min(old current, new max)`, so that afterwards current ≤ new max. -/
theorem updateSpellSlot_clamp (slots : List (String × List Int)) (L : Int)
    (delta c m : Int) (rest : List Int)
    (hentry : jsGet slots (toString L) = some (c :: m :: rest))
    (hm : 0 ≤ m) :
    (jsGet (updateSlotsMap slots L .current delta) (toString L) =
        some (max 0 (min m (c + delta)) :: m :: rest) ∧
      0 ≤ max 0 (min m (c + delta)) ∧ max 0 (min m (c + delta)) ≤ m) ∧
    (jsGet (updateSlotsMap slots L .maxF delta) (toString L) =
        some (min c (max 0 (m + delta)) :: max 0 (m + delta) :: rest) ∧
      0 ≤ max 0 (m + delta) ∧
      min c (max 0 (m + delta)) ≤ max 0 (m + delta)) := by
  have hsome : (jsGet slots (toString L)).isSome := by simp [hentry]
  refine ⟨⟨?_, le_max_left 0 _, max_le hm (min_le_left _ _)⟩,
    ⟨?_, le_max_left 0 _, min_le_right _ _⟩⟩ <;>
  simp [updateSlotsMap, hentry, applySlotDelta,
    jsGet_jsSet_same _ _ _ hsome]

/-- Witness for C1, the spec's own scenario: slots `{"1": [4, 4]}`,
`adjust(1, current, -5)` stores current `0`, clamped rather than negative. -/
theorem updateSpellSlot_clamp_witness :
    jsGet [("1", [4, 4])] (toString (1 : Int)) =
      some ((4 : Int) :: 4 :: []) ∧ (0 : Int) ≤ 4 ∧
    jsGet (updateSlotsMap [("1", [4, 4])] 1 .current (-5)) (toString (1 : Int)) =
      some (max 0 (min 4 (4 + (-5))) :: (4 : Int) :: []) ∧
    max 0 (min 4 (4 + (-5))) = (0 : Int) :=
  ⟨by decide, by decide,
   (updateSpellSlot_clamp [("1", [4, 4])] 1 (-5) 4 4 []
     (by decide) (by decide)).1.1,
   by decide⟩

/-! ## C2: the deletion flow dereferences an undeclared variable -/

/-- C2: in the part_000 deletion flow, once the session check passes and
the supabase delete completes without error, the handler dereferences the
undeclared variable `response` (a thrown ReferenceError in JavaScript), so
the local success path is unreachable for every session/error
combination. -/
theorem deleteCharacter_undeclared_response :
    handleDeleteCharacterP0 true false = .thrownReference "response" ∧
    ∀ s e, (handleDeleteCharacterP0 s e).isLocalSuccess = false := by
  refine ⟨rfl, ?_⟩
  intro s e
  cases s <;> cases e <;> rfl

/-! ## C3: select-all toggle -/

/-- C3 counterexample: with two filtered entries sharing one id, starting
from the empty selection and applying select-all twice does not return to
the empty selection — the toggle test compares the selection's *size* with
the filtered list's *length*, and the duplicated id keeps them apart. -/
theorem selectAll_twice_counterexample :
    handleSelectAll
        (handleSelectAll ∅ [plainSpell "a" "A" 1, plainSpell "a" "A" 1])
        [plainSpell "a" "A" 1, plainSpell "a" "A" 1] ≠ ∅ := by
  decide

/-- C3 amended: when the filtered spells carry pairwise-distinct ids and
the selection only holds filtered ids, select-all is an exact two-state
toggle — it fills the selection with the whole filtered id set when the
selection is not already that set, clears it when it is, and applying it
twice from the empty selection returns to the empty selection. -/
theorem selectAll_toggle (selectedSpells : Finset String)
    (filtered : List Spell)
    (hnd : (filtered.map (fun sp => sp.id)).Nodup)
    (hsub : selectedSpells ⊆ (filtered.map (fun sp => sp.id)).toFinset) :
    (selectedSpells ≠ (filtered.map (fun sp => sp.id)).toFinset →
      handleSelectAll selectedSpells filtered =
        (filtered.map (fun sp => sp.id)).toFinset) ∧
    (selectedSpells = (filtered.map (fun sp => sp.id)).toFinset →
      handleSelectAll selectedSpells filtered = ∅) ∧
    handleSelectAll (handleSelectAll ∅ filtered) filtered = ∅ := by
  have hcard : (filtered.map (fun sp => sp.id)).toFinset.card =
      filtered.length := by
    rw [List.toFinset_card_of_nodup hnd, List.length_map]
  refine ⟨?_, ?_, ?_⟩
  · intro hne
    rw [handleSelectAll, if_neg]
    intro hlen
    exact hne (Finset.eq_of_subset_of_card_le hsub
      (le_of_eq (hcard.trans hlen.symm)))
  · intro heq
    rw [handleSelectAll, if_pos]
    rw [heq, hcard]
  · rcases Decidable.eq_or_ne filtered [] with hempty | hne
    · subst hempty
      rfl
    · have hlen0 : filtered.length ≠ 0 := by
        simpa [List.length_eq_zero] using hne
      have h1 : handleSelectAll ∅ filtered =
          (filtered.map (fun sp => sp.id)).toFinset := by
        rw [handleSelectAll, if_neg]
        simpa using fun h => hlen0 h.symm
      rw [h1, handleSelectAll, if_pos hcard]

/-- Witness for C3's amended theorem at a one-spell filtered list. -/
theorem selectAll_toggle_witness :
    ([lightSpell].map (fun sp => sp.id)).Nodup ∧
    handleSelectAll (handleSelectAll ∅ [lightSpell]) [lightSpell] = ∅ :=
  ⟨by decide,
   (selectAll_toggle ∅ [lightSpell] (by decide) (Finset.empty_subset _)).2.2⟩

/-! ## C4: deduplication of added spells -/

/-- C4 counterexample: one batch holding two distinct spells that share a
name, neither known, is persisted with *two* same-name entries — the
filter only screens against already-known names, not within the batch. -/
theorem addSpells_batch_dup_counterexample :
    ((addSpellsToGrimoire []
        [plainSpell "e1" "Escudo" 1, plainSpell "e2" "Escudo" 1]).getD
      []).countP (fun k => k.refName == "Escudo") = 2 := by
  decide


/-- C4 amended: nothing is persisted exactly when every selected spell's
name is already known; otherwise the persisted list appends, in order, one
`{name, level}` entry per selected spell whose name was not yet known — in
particular no already-known name is ever added, and when the selected
spells' names are pairwise distinct no two added entries share a name. -/
theorem addSpells_dedup (currentSpells : List KnownSpell)
    (spells : List Spell) :
    (addSpellsToGrimoire currentSpells spells = none ↔
      ∀ sp ∈ spells, sp.name ∈ currentSpells.map KnownSpell.refName) ∧
    (∀ l, addSpellsToGrimoire currentSpells spells = some l →
      l = currentSpells ++
          (spells.filter (fun sp =>
            !(currentSpells.map KnownSpell.refName).contains sp.name)).map
            (fun sp => KnownSpell.obj sp.name sp.level) ∧
      (∀ k ∈ l.drop currentSpells.length,
        k.refName ∉ currentSpells.map KnownSpell.refName) ∧
      ((spells.map Spell.name).Nodup →
        ((l.drop currentSpells.length).map KnownSpell.refName).Nodup)) := by
  have hdef : addSpellsToGrimoire currentSpells spells =
      if (spells.filter (fun sp =>
          !(currentSpells.map KnownSpell.refName).contains sp.name)).isEmpty
      then none
      else some (currentSpells ++
        (spells.filter (fun sp =>
          !(currentSpells.map KnownSpell.refName).contains sp.name)).map
          (fun sp => KnownSpell.obj sp.name sp.level)) := rfl
  constructor
  · rw [hdef]
    by_cases h : (spells.filter (fun sp =>
        !(currentSpells.map KnownSpell.refName).contains sp.name)).isEmpty
    · rw [if_pos h]
      simp only [List.isEmpty_eq_true, List.filter_eq_nil_iff] at h
      refine ⟨fun _ sp hsp => ?_, fun _ => rfl⟩
      simpa using h sp hsp
    · rw [if_neg h]
      constructor
      · intro hcontra
        exact absurd hcontra (by simp)
      · intro hall
        exfalso
        apply h
        simp only [List.isEmpty_eq_true, List.filter_eq_nil_iff]
        intro sp hsp
        simpa using hall sp hsp
  · intro l hl
    rw [hdef] at hl
    by_cases h : (spells.filter (fun sp =>
        !(currentSpells.map KnownSpell.refName).contains sp.name)).isEmpty
    · rw [if_pos h] at hl
      exact absurd hl (by simp)
    · rw [if_neg h] at hl
      have heq := (Option.some_inj.mp hl).symm
      refine ⟨heq, ?_, ?_⟩
      · rw [heq, List.drop_left]
        intro k hk
        rcases List.mem_map.mp hk with ⟨sp, hsp, rfl⟩
        rcases List.mem_filter.mp hsp with ⟨hspmem, hpred⟩
        simpa [KnownSpell.refName] using hpred
      · intro hnd
        rw [heq, List.drop_left, List.map_map]
        exact hnd.sublist (List.Sublist.map Spell.name (List.filter_sublist spells))

/-- Witness for C4's amended theorem, the spec's own scenario: adding
["Fireball", "Shield"] to a character already knowing "Fireball" persists
exactly one new entry, and the added entry's name was not yet known. -/
theorem addSpells_dedup_witness :
    addSpellsToGrimoire [.str "Fireball"] [fireballSpell, shieldSpell] =
      some [.str "Fireball", .obj "Shield" 1] ∧
    (∀ k ∈ [KnownSpell.str "Fireball", KnownSpell.obj "Shield" 1].drop 1,
      k.refName ∉ [KnownSpell.str "Fireball"].map KnownSpell.refName) :=
  ⟨by decide, by
    have h := ((addSpells_dedup [.str "Fireball"]
        [fireballSpell, shieldSpell]).2
      [.str "Fireball", .obj "Shield" 1] (by decide)).2.1
    simpa using h⟩

/-! ## C5: catalog loader soundness -/

/-- C5: every spell the catalog loader returns for a class is a catalog
spell that either lists the class's name among its eligible classes
(compared case-insensitively after trimming the listed entry) or has an
eligible subclass matching one of the class's own subclass descriptors
case-insensitively (descriptors being bare names or named objects); and
when the class or its name is absent the loader returns an empty list. -/
theorem classSpells_sound (spellsData : List Spell) :
    (∀ cc nm spell, cc.name = some nm →
      spell ∈ classSpells (some cc) spellsData →
      spell ∈ spellsData ∧
      ((∃ cn ∈ spell.classes.getD [], jsToLower (jsTrim cn) = jsToLower nm) ∨
       ∃ sub ∈ spell.subclasses.getD [], ∃ cs ∈ cc.subclasses.getD [],
         (∃ s, cs = SubclassEntry.strE s ∧ jsToLower s = jsToLower sub) ∨
         (∃ n, cs = SubclassEntry.objE (some n) ∧ n ≠ "" ∧
           jsToLower n = jsToLower sub))) ∧
    classSpells none spellsData = [] ∧
    (∀ cc, cc.name = none → classSpells (some cc) spellsData = []) := by
  refine ⟨?_, rfl, fun cc h => by simp [classSpells, h]⟩
  intro cc nm spell hnm hmem
  by_cases hempty : nm = ""
  · have hb : (nm == "") = true := by simp [hempty]
    simp [classSpells, hnm, hb] at hmem
  · have hb : (nm == "") = false := beq_eq_false_iff_ne.mpr hempty
    have hmem' : spell ∈ spellsData.filter (classSpellPred cc nm) := by
      simpa [classSpells, hnm, hb] using hmem
    rcases List.mem_filter.mp hmem' with ⟨hd, hp⟩
    refine ⟨hd, ?_⟩
    rw [classSpellPred, Bool.or_eq_true] at hp
    rcases hp with hcl | hsub
    · left
      cases hc : spell.classes with
      | none => rw [hc] at hcl; simp at hcl
      | some cls =>
        rw [hc] at hcl
        simp only [Option.elim, List.any_eq_true, classNameMatches,
          Bool.and_eq_true, beq_iff_eq, ne_eq] at hcl
        rcases hcl with ⟨cn, hcnmem, _, hcneq⟩
        exact ⟨cn, by simp [hc, hcnmem], hcneq⟩
    · right
      cases hs : spell.subclasses with
      | none => rw [hs] at hsub; simp at hsub
      | some subs =>
        cases hcs : cc.subclasses with
        | none => rw [hs, hcs] at hsub; simp at hsub
        | some csubs =>
          rw [hs, hcs] at hsub
          simp only [Option.elim, List.any_eq_true] at hsub
          rcases hsub with ⟨sub, hsubmem, cs, hcsmem, hmatch⟩
          refine ⟨sub, by simp [hs, hsubmem], cs, by simp [hcs, hcsmem], ?_⟩
          cases cs with
          | strE s =>
            left
            exact ⟨s, rfl, by simpa [subclassMatches] using hmatch⟩
          | objE n =>
            right
            cases n with
            | none => simp [subclassMatches] at hmatch
            | some nm2 =>
              simp only [subclassMatches, Option.elim, Bool.and_eq_true,
                beq_iff_eq, ne_eq, decide_eq_true_eq] at hmatch
              exact ⟨nm2, rfl, by simpa using hmatch.1, hmatch.2⟩

/-- Witness for C5 at the class "Mago" and its spell "Fireball". -/
theorem classSpells_sound_witness :
    magoClass.name = some "Mago" ∧
    fireballSpell ∈ classSpells (some magoClass) [fireballSpell] ∧
    fireballSpell ∈ [fireballSpell] :=
  ⟨by decide, by decide,
   ((classSpells_sound [fireballSpell]).1 magoClass "Mago" fireballSpell
     (by decide) (by decide)).1⟩

/-! ## C6: shape of the built display list -/

/-- The spell rows of the built list are exactly the spells whose level is
expanded, in order, whatever the previous-level seed. -/
theorem listItemsGo_rows (expandedLevels : List Int) (spells : List Spell) :
    ∀ cur, (listItemsGo expandedLevels spells cur).filterMap
        SpellListItem.rowSpell =
      spells.filter (fun sp => expandedLevels.contains sp.level) := by
  induction spells with
  | nil => intro cur; rfl
  | cons sp rest ih =>
    intro cur
    rw [listItemsGo, List.filterMap_append, List.filterMap_append, ih]
    by_cases h1 : sp.level ≠ cur <;>
      by_cases h2 : sp.level ∈ expandedLevels <;>
        simp [h1, h2, SpellListItem.rowSpell, List.filter_cons]

/-- The header levels of the built list depend only on the level sequence:
they are `levelsHeaders` of it. -/
theorem listItemsGo_headers (expandedLevels : List Int) (spells : List Spell) :
    ∀ cur, (listItemsGo expandedLevels spells cur).filterMap
        SpellListItem.headerLevel =
      levelsHeaders cur (spells.map (fun sp => sp.level)) := by
  induction spells with
  | nil => intro cur; rfl
  | cons sp rest ih =>
    intro cur
    rw [listItemsGo, List.filterMap_append, List.filterMap_append, ih,
      List.map_cons, levelsHeaders]
    by_cases h1 : sp.level ≠ cur <;>
      by_cases h2 : sp.level ∈ expandedLevels <;>
        simp [h1, h2, SpellListItem.rowSpell, SpellListItem.headerLevel]

/-- Over a non-decreasing level sequence lying above the seed, the emitted
header levels are strictly increasing and strictly above the seed. -/
theorem levelsHeaders_sorted (ls : List Int) :
    ∀ cur, (∀ x ∈ ls, cur ≤ x) → ls.Pairwise (· ≤ ·) →
      (levelsHeaders cur ls).Pairwise (· < ·) ∧
      ∀ x ∈ levelsHeaders cur ls, cur < x := by
  induction ls with
  | nil =>
    intro cur _ _
    exact ⟨List.Pairwise.nil, by simp [levelsHeaders]⟩
  | cons l ls ih =>
    intro cur hle hpw
    have hl : cur ≤ l := hle l (List.mem_cons_self _ _)
    have hle' : ∀ x ∈ ls, l ≤ x := fun x hx => (List.pairwise_cons.mp hpw).1 x hx
    rcases ih l hle' (List.pairwise_cons.mp hpw).2 with ⟨ihs, ihgt⟩
    rw [levelsHeaders]
    by_cases h : l ≠ cur
    · rw [if_pos h]
      have hcl : cur < l := lt_of_le_of_ne hl (Ne.symm h)
      refine ⟨List.pairwise_cons.mpr ⟨fun x hx => ihgt x hx, ihs⟩, ?_⟩
      intro x hx
      rcases List.mem_cons.mp hx with rfl | hx'
      · exact hcl
      · exact lt_trans hcl (ihgt x hx')
    · rw [if_neg h]
      have hlc : l = cur := not_not.mp h
      subst hlc
      exact ⟨ihs, ihgt⟩

/-- Every emitted header level occurs in the level sequence. -/
theorem levelsHeaders_subset (ls : List Int) :
    ∀ cur x, x ∈ levelsHeaders cur ls → x ∈ ls := by
  induction ls with
  | nil => intro cur x hx; simp [levelsHeaders] at hx
  | cons l ls ih =>
    intro cur x hx
    rw [levelsHeaders] at hx
    by_cases h : l ≠ cur
    · rw [if_pos h] at hx
      rcases List.mem_cons.mp hx with rfl | hx'
      · exact List.mem_cons_self _ _
      · exact List.mem_cons_of_mem _ (ih l x hx')
    · rw [if_neg h] at hx
      exact List.mem_cons_of_mem _ (ih l x hx)

/-- Every level of the sequence is emitted as a header, unless it equals
the seed. -/
theorem levelsHeaders_complete (ls : List Int) :
    ∀ cur x, x ∈ ls → x ∈ levelsHeaders cur ls ∨ x = cur := by
  induction ls with
  | nil => intro cur x hx; simp at hx
  | cons l ls ih =>
    intro cur x hx
    rw [levelsHeaders]
    by_cases h : l ≠ cur
    · rw [if_pos h]
      rcases List.mem_cons.mp hx with rfl | hx'
      · exact Or.inl (List.mem_cons_self _ _)
      · rcases ih l x hx' with hin | rfl
        · exact Or.inl (List.mem_cons_of_mem _ hin)
        · exact Or.inl (List.mem_cons_self _ _)
    · rw [if_neg h]
      have hlc : l = cur := not_not.mp h
      rcases List.mem_cons.mp hx with rfl | hx'
      · exact Or.inr hlc
      · rcases ih l x hx' with hin | rfl
        · exact Or.inl hin
        · exact Or.inr hlc

/-- C6: for a level-sorted spell list with non-negative levels, the list
builder emits one spell row per spell of an expanded level (in order), and
its header entries are a strictly increasing — hence deduplicated and
ordered — enumeration of exactly the levels present in the list,
independent of the expansion state. -/
theorem listItems_shape (spells : List Spell) (expandedLevels : List Int)
    (hsorted : spells.Pairwise (fun a b => a.level ≤ b.level))
    (hpos : ∀ sp ∈ spells, 0 ≤ sp.level) :
    ((listItems spells expandedLevels).filterMap SpellListItem.rowSpell =
      spells.filter (fun sp => expandedLevels.contains sp.level)) ∧
    (∀ other : List Int,
      (listItems spells expandedLevels).filterMap SpellListItem.headerLevel =
        (listItems spells other).filterMap SpellListItem.headerLevel) ∧
    ((listItems spells expandedLevels).filterMap
        SpellListItem.headerLevel).Pairwise (· < ·) ∧
    (∀ l, l ∈ (listItems spells expandedLevels).filterMap
        SpellListItem.headerLevel ↔ l ∈ spells.map (fun sp => sp.level)) := by
  have hmap : (spells.map (fun sp => sp.level)).Pairwise (· ≤ ·) :=
    List.pairwise_map.mpr hsorted
  have hpos0 : ∀ x ∈ spells.map (fun sp => sp.level), (0 : Int) ≤ x := by
    intro x hx
    rcases List.mem_map.mp hx with ⟨sp, hsp, rfl⟩
    exact hpos sp hsp
  have hseed : ∀ x ∈ spells.map (fun sp => sp.level), (-1 : Int) ≤ x :=
    fun x hx => le_trans (by norm_num) (hpos0 x hx)
  refine ⟨listItemsGo_rows _ _ _, ?_, ?_, ?_⟩
  · intro other
    rw [listItems, listItems, listItemsGo_headers, listItemsGo_headers]
  · rw [listItems, listItemsGo_headers]
    exact (levelsHeaders_sorted _ (-1) hseed hmap).1
  · intro l
    rw [listItems, listItemsGo_headers]
    constructor
    · exact levelsHeaders_subset _ (-1) l
    · intro hl
      rcases levelsHeaders_complete _ (-1) l hl with hin | rfl
      · exact hin
      · exact absurd (hpos0 _ hl) (by norm_num)

/-- Witness for C6 at a two-spell sorted list with only level 0 expanded:
the shield row is suppressed, the level-1 header is not. -/
theorem listItems_shape_witness :
    ([lightSpell, shieldSpell].Pairwise (fun a b => a.level ≤ b.level)) ∧
    (listItems [lightSpell, shieldSpell] [0]).filterMap
        SpellListItem.rowSpell =
      [lightSpell, shieldSpell].filter
        (fun sp => ([0] : List Int).contains sp.level) :=
  ⟨by decide,
   (listItems_shape [lightSpell, shieldSpell] [0] (by decide) (by decide)).1⟩

/-! ## C7: the filter predicate -/

/-- Propositional reading of the source's filter predicate. -/
theorem spellSearchPred_iff (q : String) (sch : Option String) (s : Spell) :
    spellSearchPred q sch s = true ↔
      (q = "" ∨ jsIncludes (jsToLower s.name) (jsToLower q) = true) ∧
      (∀ sel, sch = some sel → sel ≠ "" →
        s.school ≠ "" ∧ jsToLower (jsTrim s.school) = jsToLower sel) := by
  rw [spellSearchPred]
  simp only [Bool.and_eq_true, Bool.or_eq_true, beq_iff_eq]
  constructor
  · rintro ⟨hsearch, hschool⟩
    refine ⟨hsearch, ?_⟩
    intro sel hsel hne
    subst hsel
    have htr : jsTruthyStr (some sel) = true := by simp [jsTruthyStr, hne]
    rw [if_pos htr] at hschool
    simp only [Option.elim] at hschool
    simpa using hschool
  · rintro ⟨hsearch, hschool⟩
    refine ⟨hsearch, ?_⟩
    cases sch with
    | none => simp [jsTruthyStr]
    | some sel =>
      by_cases hne : sel = ""
      · subst hne
        simp [jsTruthyStr]
      · have htr : jsTruthyStr (some sel) = true := by simp [jsTruthyStr, hne]
        rw [if_pos htr]
        simp only [Option.elim]
        simpa using hschool sel rfl hne

/-- C7 counterexample: with school "evocation" selected, the source keeps a
spell whose stored school is "Evocation " (trailing blank), because it
trims the spell's school before comparing — yet that school does not equal
the selected school case-insensitively, as the claim words the filter. -/
theorem filteredSpells_school_trim_counterexample :
    paddedSchoolSpell ∈
      filteredAndSortedSpells [paddedSchoolSpell] "" (some "evocation") ∧
    ¬ specSchoolEq paddedSchoolSpell.school "evocation" := by
  constructor
  · rw [filteredAndSortedSpells, List.mem_mergeSort, List.mem_filter]
    exact ⟨by decide, by decide⟩
  · show ¬ (jsToLower paddedSchoolSpell.school = jsToLower "evocation")
    decide

/-- C7 amended: the filtered result holds exactly those catalog spells
whose name contains the query as a case-insensitive substring (the empty
query imposing no constraint) and whose school — *after trimming* — equals
the selected school case-insensitively (a null or empty selection imposing
no constraint). -/
theorem filteredSpells_mem (cs : List Spell) (q : String)
    (sch : Option String) (s : Spell) :
    s ∈ filteredAndSortedSpells cs q sch ↔
      s ∈ cs ∧
      (q = "" ∨ jsIncludes (jsToLower s.name) (jsToLower q) = true) ∧
      (∀ sel, sch = some sel → sel ≠ "" →
        s.school ≠ "" ∧ jsToLower (jsTrim s.school) = jsToLower sel) := by
  rw [filteredAndSortedSpells, List.mem_mergeSort, List.mem_filter,
    spellSearchPred_iff]

/-- Witness for C7's amended theorem, the spec's scenario: querying "li"
with no school selected keeps "Light". -/
theorem filteredSpells_mem_witness :
    lightSpell ∈
      filteredAndSortedSpells [fireballSpell, lightSpell] "li" none :=
  (filteredSpells_mem [fireballSpell, lightSpell] "li" none lightSpell).mpr
    ⟨by decide, Or.inr (by decide), fun _ h _ => Option.noConfusion h⟩

/-! ## C8: grimoire aggregation -/

theorem inGroup_iff_getD (m : List (Int × List Spell)) (l : Int)
    (sp : Spell) : inGroup m l sp ↔ sp ∈ (jsGet m l).getD [] := by
  rw [inGroup]
  cases h : jsGet m l <;> simp [h]

theorem jsGet_addToGroup (acc : List (Int × List Spell)) (x : Spell) :
    ∀ l, jsGet (addToGroup acc x) l =
      if l = x.level then some ((jsGet acc x.level).getD [] ++ [x])
      else jsGet acc l := by
  induction acc with
  | nil =>
    intro l
    rw [show addToGroup [] x = [(x.level, [x])] from rfl, jsGet_cons]
    by_cases h : l = x.level
    · have hb : (x.level == l) = true := by simp [h]
      rw [if_pos h]
      simp [hb, jsGet]
    · have hb : (x.level == l) = false :=
        beq_eq_false_iff_ne.mpr (fun hc => h hc.symm)
      rw [if_neg h]
      simp [hb, jsGet]
  | cons p rest ih =>
    obtain ⟨k, g⟩ := p
    intro l
    rw [show addToGroup ((k, g) :: rest) x =
      (if k = x.level then (k, g ++ [x]) :: rest
       else (k, g) :: addToGroup rest x) from rfl]
    by_cases hk : k = x.level
    · rw [if_pos hk]
      by_cases hl : l = x.level
      · have hkl : (k == l) = true := by simp [hk, hl]
        have hkx : (k == x.level) = true := by simp [hk]
        rw [if_pos hl, jsGet_cons, jsGet_cons]
        simp [hkl, hkx]
      · have hkl : (k == l) = false :=
          beq_eq_false_iff_ne.mpr (fun hc => hl (hc ▸ hk))
        rw [if_neg hl, jsGet_cons, jsGet_cons]
        simp [hkl]
    · rw [if_neg hk, jsGet_cons, ih l]
      have hkx : (k == x.level) = false := beq_eq_false_iff_ne.mpr hk
      by_cases hl : l = x.level
      · have hkl : (k == l) = false :=
          beq_eq_false_iff_ne.mpr (fun hc => hk (hc.trans hl))
        rw [if_pos hl, if_pos hl, jsGet_cons]
        simp [hkl, hkx]
      · rw [if_neg hl, if_neg hl, jsGet_cons]

theorem inGroup_addToGroup (acc : List (Int × List Spell)) (x : Spell)
    (l : Int) (sp : Spell) :
    inGroup (addToGroup acc x) l sp ↔
      inGroup acc l sp ∨ (x.level = l ∧ sp = x) := by
  rw [inGroup_iff_getD, inGroup_iff_getD, jsGet_addToGroup]
  by_cases h : l = x.level
  · subst h
    simp [List.mem_append, eq_comm]
  · have h' : x.level ≠ l := fun hc => h hc.symm
    rw [if_neg h]
    simp [h']

theorem inGroup_foldl (ss : List Spell) :
    ∀ (acc : List (Int × List Spell)) (l : Int) (sp : Spell),
      inGroup (ss.foldl addToGroup acc) l sp ↔
        inGroup acc l sp ∨ (sp.level = l ∧ sp ∈ ss) := by
  induction ss with
  | nil => intro acc l sp; simp
  | cons x rest ih =>
    intro acc l sp
    rw [List.foldl_cons, ih, inGroup_addToGroup]
    constructor
    · rintro ((hacc | ⟨hxl, rfl⟩) | ⟨hl, hmem⟩)
      · exact Or.inl hacc
      · exact Or.inr ⟨hxl, List.mem_cons_self _ _⟩
      · exact Or.inr ⟨hl, List.mem_cons_of_mem _ hmem⟩
    · rintro (hacc | ⟨hl, hmem⟩)
      · exact Or.inl (Or.inl hacc)
      · rcases List.mem_cons.mp hmem with rfl | hmem'
        · exact Or.inl (Or.inr ⟨hl, rfl⟩)
        · exact Or.inr ⟨hl, hmem'⟩

theorem jsGet_map_sortGroups (m : List (Int × List Spell)) (k : Int) :
    jsGet (m.map (fun p => (p.1, p.2.mergeSort nameLE))) k =
      (jsGet m k).map (fun g => g.mergeSort nameLE) := by
  induction m with
  | nil => rfl
  | cons p rest ih =>
    rw [List.map_cons, jsGet_cons, jsGet_cons]
    by_cases h : (p.1 == k) = true
    · simp [h]
    · simp only [Bool.not_eq_true] at h
      simp [h, ih]

theorem nameLE_trans : ∀ a b c : Spell, nameLE a b → nameLE b c → nameLE a c := by
  intro a b c hab hbc
  simp only [nameLE, decide_eq_true_eq] at *
  exact le_trans hab hbc

theorem nameLE_total : ∀ a b : Spell, nameLE a b || nameLE b a := by
  intro a b
  simp only [nameLE, Bool.or_eq_true, decide_eq_true_eq]
  exact le_total a.name b.name

theorem slotLE_trans : ∀ a b c : SpellSlotInfo,
    slotLE a b → slotLE b c → slotLE a c := by
  intro a b c hab hbc
  simp only [slotLE, decide_eq_true_eq] at *
  exact le_trans hab hbc

theorem slotLE_total : ∀ a b : SpellSlotInfo, slotLE a b || slotLE b a := by
  intro a b
  simp only [slotLE, Bool.or_eq_true, decide_eq_true_eq]
  exact le_total _ _

/-- C8: grimoire aggregation resolves each known-spell reference by name
against the catalog (bare-string or named-object entries) and silently
drops names with no catalog match; the resolved spells are grouped into a
level-keyed mapping whose groups hold exactly the resolved spells of that
level, each group sorted by name; and a slot entry is included exactly for
each stored array of at least two numbers, the resulting list being sorted
ascending by level (the stored keys being numeric). -/
theorem prepareCharacterSpells_spec (allSpells : List Spell)
    (classesData : List DnDClass) (ch : Character)
    (hkeys : ∀ p ∈ ch.spell_slots, (parseIntJS p.1).isSome) :
    (∀ sp, sp ∈ (prepareCharacterSpells allSpells classesData ch).spells ↔
      ∃ k ∈ ch.spells_known,
        getSpellByName allSpells k.refName = some sp) ∧
    (∀ l sp,
      inGroup (prepareCharacterSpells allSpells classesData ch).spellsByLevel
          l sp ↔
        sp.level = l ∧
          sp ∈ (prepareCharacterSpells allSpells classesData ch).spells) ∧
    (∀ p ∈ (prepareCharacterSpells allSpells classesData ch).spellsByLevel,
      p.2.Pairwise (fun a b => a.name ≤ b.name)) ∧
    (∀ info,
      info ∈ (prepareCharacterSpells allSpells classesData ch).spellSlots ↔
        ∃ p ∈ ch.spell_slots, ∃ c m r, p.2 = c :: m :: r ∧
          info = ⟨c, m, parseIntJS p.1⟩) ∧
    ((prepareCharacterSpells allSpells classesData ch).spellSlots.Pairwise
      (fun a b => ∃ x y, a.level = some x ∧ b.level = some y ∧ x ≤ y)) := by
  have hspells : (prepareCharacterSpells allSpells classesData ch).spells =
      resolveKnownSpells allSpells ch.spells_known := rfl
  have hgroups :
      (prepareCharacterSpells allSpells classesData ch).spellsByLevel =
      (groupSpellsByLevel
          (resolveKnownSpells allSpells ch.spells_known)).map
        (fun p => (p.1, p.2.mergeSort nameLE)) := rfl
  have hslots : (prepareCharacterSpells allSpells classesData ch).spellSlots =
      (ch.spell_slots.filterMap (fun p =>
        match p.2 with
        | c :: m :: _ =>
          some { current := c, max := m, level := parseIntJS p.1 }
        | _ => none)).mergeSort slotLE := rfl
  have h1 : ∀ sp,
      sp ∈ (prepareCharacterSpells allSpells classesData ch).spells ↔
      ∃ k ∈ ch.spells_known, getSpellByName allSpells k.refName = some sp := by
    intro sp
    rw [hspells, resolveKnownSpells, List.mem_filterMap]
  have h2 : ∀ l sp,
      inGroup (prepareCharacterSpells allSpells classesData ch).spellsByLevel
          l sp ↔
      sp.level = l ∧
        sp ∈ (prepareCharacterSpells allSpells classesData ch).spells := by
    intro l sp
    rw [hgroups, hspells]
    have hstep :
        inGroup ((groupSpellsByLevel
            (resolveKnownSpells allSpells ch.spells_known)).map
          (fun p => (p.1, p.2.mergeSort nameLE))) l sp ↔
        inGroup (groupSpellsByLevel
          (resolveKnownSpells allSpells ch.spells_known)) l sp := by
      rw [inGroup_iff_getD, inGroup_iff_getD, jsGet_map_sortGroups]
      cases hj : jsGet (groupSpellsByLevel
          (resolveKnownSpells allSpells ch.spells_known)) l <;>
        simp [hj]
    rw [hstep, groupSpellsByLevel, inGroup_foldl]
    simp [inGroup, jsGet]
  have h3 : ∀ p ∈ (prepareCharacterSpells allSpells classesData ch).spellsByLevel,
      p.2.Pairwise (fun a b => a.name ≤ b.name) := by
    intro p hp
    rw [hgroups] at hp
    rcases List.mem_map.mp hp with ⟨q, _, rfl⟩
    exact (List.sorted_mergeSort nameLE_trans nameLE_total q.2).imp
      (fun h => by simpa [nameLE] using h)
  have h4 : ∀ info,
      info ∈ (prepareCharacterSpells allSpells classesData ch).spellSlots ↔
      ∃ p ∈ ch.spell_slots, ∃ c m r, p.2 = c :: m :: r ∧
        info = ⟨c, m, parseIntJS p.1⟩ := by
    intro info
    rw [hslots, List.mem_mergeSort, List.mem_filterMap]
    constructor
    · rintro ⟨p, hp, hmatch⟩
      refine ⟨p, hp, ?_⟩
      rcases hpp : p.2 with _ | ⟨c, t⟩
      · rw [hpp] at hmatch
        exact Option.noConfusion hmatch
      · rcases t with _ | ⟨m, r⟩
        · rw [hpp] at hmatch
          exact Option.noConfusion hmatch
        · rw [hpp] at hmatch
          exact ⟨c, m, r, rfl, (Option.some.inj hmatch).symm⟩
    · rintro ⟨p, hp, c, m, r, hpr, rfl⟩
      exact ⟨p, hp, by rw [hpr]⟩
  have h5 :
      ((prepareCharacterSpells allSpells classesData ch).spellSlots.Pairwise
        (fun a b => ∃ x y, a.level = some x ∧ b.level = some y ∧ x ≤ y)) := by
    have hmemlevel : ∀ info ∈
        (prepareCharacterSpells allSpells classesData ch).spellSlots,
        info.level.isSome := by
      intro info hinfo
      rcases (h4 info).mp hinfo with ⟨p, hp, c, m, r, _, rfl⟩
      simpa using hkeys p hp
    have hpw : ((prepareCharacterSpells allSpells classesData
        ch).spellSlots).Pairwise (fun a b => slotLE a b) := by
      rw [hslots]
      exact List.sorted_mergeSort slotLE_trans slotLE_total _
    refine hpw.imp_of_mem ?_
    intro a b ha hb hab
    rcases Option.isSome_iff_exists.mp (hmemlevel a ha) with ⟨x, hx⟩
    rcases Option.isSome_iff_exists.mp (hmemlevel b hb) with ⟨y, hy⟩
    refine ⟨x, y, hx, hy, ?_⟩
    simpa [slotLE, hx, hy] using hab
  exact ⟨h1, h2, h3, h4, h5⟩

/-- Witness for C8, the spec's scenario: the character knows "Fireball" and
"Unknown Spell" while the catalog holds only "Fireball"; the unresolved
name is silently dropped and "Fireball" is the only resolved spell. -/
theorem prepareCharacterSpells_spec_witness :
    (∀ p ∈ sampleCharacter.spell_slots, (parseIntJS p.1).isSome) ∧
    (prepareCharacterSpells [fireballSpell] [] sampleCharacter).spells =
      [fireballSpell] ∧
    fireballSpell ∈
      (prepareCharacterSpells [fireballSpell] [] sampleCharacter).spells :=
  ⟨by decide, by decide,
   ((prepareCharacterSpells_spec [fireballSpell] [] sampleCharacter
       (by decide)).1 fireballSpell).mpr
     ⟨.str "Fireball", by decide, by decide⟩⟩

/-! ## C9 and C10: effects of one slot update -/

/-- C9: when the slot-update request fails — a non-success response or a
thrown network error — the in-memory state is left unchanged and a
blocking alert is shown; local state is modified only on a success
response, and then both the cached character list and the open detail view
are refreshed to the record the store returned. -/
theorem updateSpellSlot_failure_frame (allSpells : List Spell)
    (classesData : List DnDClass) (st : LocalState) (sel : CharacterSpells)
    (L : Int) (t : SlotField) (delta : Int)
    (respond : UpdateBody → FetchOutcome) (arr : List Int) (body : UpdateBody)
    (hsel : st.selectedCharacter = some sel)
    (hentry : jsGet sel.character.spell_slots (toString L) = some arr)
    (hbody : body =
      { spell_slots := jsSet sel.character.spell_slots (toString L)
          (applySlotDelta t delta arr) }) :
    (respond body = .httpError →
      (updateSpellSlotStep allSpells classesData st true L t delta
          respond).state = st ∧
      (updateSpellSlotStep allSpells classesData st true L t delta
          respond).alert = some .updateFailed) ∧
    (respond body = .netError →
      (updateSpellSlotStep allSpells classesData st true L t delta
          respond).state = st ∧
      (updateSpellSlotStep allSpells classesData st true L t delta
          respond).alert = some .unexpectedError) ∧
    (∀ upd, respond body = .ok upd →
      (updateSpellSlotStep allSpells classesData st true L t delta
          respond).state =
        { characters := st.characters.map (fun c =>
            if c.id == sel.character.id then upd else c),
          selectedCharacter :=
            some (prepareCharacterSpells allSpells classesData upd) } ∧
      (updateSpellSlotStep allSpells classesData st true L t delta
          respond).alert = none) := by
  subst hbody
  refine ⟨fun hr => ?_, fun hr => ?_, fun upd hr => ?_⟩ <;>
    constructor <;>
      simp [updateSpellSlotStep, hsel, hentry, hr]

/-- Witness for C9 at the sample state, a failing response. -/
theorem updateSpellSlot_failure_frame_witness :
    sampleState.selectedCharacter = some sampleSelected ∧
    (updateSpellSlotStep [fireballSpell] [] sampleState true 3 .current 1
        (fun _ => .httpError)).state = sampleState ∧
    (updateSpellSlotStep [fireballSpell] [] sampleState true 3 .current 1
        (fun _ => .httpError)).alert = some .updateFailed :=
  ⟨rfl,
   (updateSpellSlot_failure_frame [fireballSpell] [] sampleState
      sampleSelected 3 .current 1 (fun _ => .httpError) [2, 3] _
      rfl (by decide) rfl).1 rfl⟩

/-- C10: with a session, a selected character and a well-formed entry at
level `L`, the slot update issues one request whose body carries only the
`spell_slots` field — equal to the old mapping rewritten at key `L` alone,
every other key reading unchanged — and, the store applying that body to
its record, the refreshed local state holds the updated record, which
differs from the stored one only in `spell_slots`: name, class, level, hit
points and known spells are untouched, and other levels' entries are
unchanged in the refreshed record as well. -/
theorem updateSpellSlot_frame (allSpells : List Spell)
    (classesData : List DnDClass) (st : LocalState) (sel : CharacterSpells)
    (L : Int) (t : SlotField) (delta : Int) (serverChar : Character)
    (arr : List Int)
    (hsel : st.selectedCharacter = some sel)
    (hentry : jsGet sel.character.spell_slots (toString L) = some arr) :
    ∃ body : UpdateBody,
      (updateSpellSlotStep allSpells classesData st true L t delta
        (fun b => .ok (applyServerUpdate serverChar b))).request =
          some body ∧
      body.spell_slots = updateSlotsMap sel.character.spell_slots L t delta ∧
      (∀ k, k ≠ toString L →
        jsGet body.spell_slots k = jsGet sel.character.spell_slots k) ∧
      (updateSpellSlotStep allSpells classesData st true L t delta
        (fun b => .ok (applyServerUpdate serverChar b))).state.selectedCharacter =
          some (prepareCharacterSpells allSpells classesData
            (applyServerUpdate serverChar body)) ∧
      (applyServerUpdate serverChar body).spell_slots = body.spell_slots ∧
      (applyServerUpdate serverChar body).name = serverChar.name ∧
      (applyServerUpdate serverChar body).class_name = serverChar.class_name ∧
      (applyServerUpdate serverChar body).level = serverChar.level ∧
      (applyServerUpdate serverChar body).hp_current = serverChar.hp_current ∧
      (applyServerUpdate serverChar body).hp_max = serverChar.hp_max ∧
      (applyServerUpdate serverChar body).spells_known =
        serverChar.spells_known := by
  refine ⟨⟨jsSet sel.character.spell_slots (toString L)
      (applySlotDelta t delta arr)⟩, ?_, ?_, ?_, ?_, rfl, rfl, rfl, rfl,
    rfl, rfl, rfl⟩
  · simp [updateSpellSlotStep, hsel, hentry]
  · simp [updateSlotsMap, hentry]
  · intro k hk
    exact jsGet_jsSet_other _ _ _ _ hk
  · simp [updateSpellSlotStep, hsel, hentry]

/-- Witness for C10 at the sample state: the store holds the sample
character and answers the update successfully. -/
theorem updateSpellSlot_frame_witness :
    sampleState.selectedCharacter = some sampleSelected ∧
    ∃ body : UpdateBody,
      (updateSpellSlotStep [fireballSpell] [] sampleState true 3 .current 1
        (fun b => .ok (applyServerUpdate sampleCharacter b))).request =
          some body ∧
      body.spell_slots =
        updateSlotsMap sampleSelected.character.spell_slots 3 .current 1 ∧
      (∀ k, k ≠ toString (3 : Int) →
        jsGet body.spell_slots k =
          jsGet sampleSelected.character.spell_slots k) ∧
      (updateSpellSlotStep [fireballSpell] [] sampleState true 3 .current 1
        (fun b => .ok (applyServerUpdate sampleCharacter b))).state.selectedCharacter =
          some (prepareCharacterSpells [fireballSpell] []
            (applyServerUpdate sampleCharacter body)) ∧
      (applyServerUpdate sampleCharacter body).spell_slots =
        body.spell_slots ∧
      (applyServerUpdate sampleCharacter body).name = sampleCharacter.name ∧
      (applyServerUpdate sampleCharacter body).class_name =
        sampleCharacter.class_name ∧
      (applyServerUpdate sampleCharacter body).level = sampleCharacter.level ∧
      (applyServerUpdate sampleCharacter body).hp_current =
        sampleCharacter.hp_current ∧
      (applyServerUpdate sampleCharacter body).hp_max =
        sampleCharacter.hp_max ∧
      (applyServerUpdate sampleCharacter body).spells_known =
        sampleCharacter.spells_known :=
  ⟨rfl,
   updateSpellSlot_frame [fireballSpell] [] sampleState sampleSelected 3
     .current 1 sampleCharacter [2, 3] rfl (by decide)⟩
